import Mathlib

/-!
Verification development for the teradata-mcp-server dispatch core.

The definitions below are a shallow embedding of the two source files
src/teradata_mcp_server/server.py and
src/teradata_mcp_server/tools/evs/evs_tools.py.  External collaborators
(the Teradata connection class, the Enterprise Vector Store client and
Python's json standard library) are not part of the repository sources,
so they are modelled from the specification where noted; everything
else is translated directly from the Python code.
-/

namespace TdMcp

/-- Left curly bracket character (written via an escape). -/
def lbrace : Char := '\x7b'

/-- Right curly bracket character (written via an escape). -/
def rbrace : Char := '\x7d'

/-- Whitespace characters skipped by the JSON scanner, mirroring the
characters Python's json module treats as insignificant. -/
def isWsChar (c : Char) : Bool := c = ' ' || c = '\t' || c = '\n' || c = '\r'

/-- Drop insignificant whitespace from the front of the input. -/
def skipWs : List Char → List Char
  | [] => []
  | c :: r => if isWsChar c then skipWs r else c :: r

/-- Decimal digit test. -/
def isDigitCh (c : Char) : Bool := '0' ≤ c && c ≤ '9'

/-- Numeric value of a decimal digit character. -/
def digitVal (c : Char) : Nat := c.toNat - 48

/-- Decimal digit character for a value below ten. -/
def digitCh (d : Nat) : Char := Char.ofNat (48 + d)

/-- Decimal digit characters of a natural number, most significant first,
prepended to an accumulator.  The first argument is fuel so that the
definition is structural and reduces inside the kernel. -/
def natDigitsGo : Nat → Nat → List Char → List Char
  | 0, _, acc => acc
  | f + 1, n, acc =>
    if n < 10 then digitCh n :: acc
    else natDigitsGo f (n / 10) (digitCh (n % 10) :: acc)

/-- Decimal digit characters of a natural number. -/
def natDigits (n : Nat) : List Char := natDigitsGo (n + 1) n []

/-- Character rendering of an integer: optional minus sign, then digits. -/
def intChars (n : Int) : List Char :=
  if n < 0 then '-' :: natDigits n.natAbs else natDigits n.natAbs

/-- Lower-case hexadecimal digit character for a value below sixteen. -/
def hexCh (d : Nat) : Char :=
  if d < 10 then Char.ofNat (48 + d) else Char.ofNat (87 + d)

/-- Value of a hexadecimal digit character, upper or lower case. -/
def hexVal (c : Char) : Option Nat :=
  if '0' ≤ c && c ≤ '9' then some (c.toNat - 48)
  else if 'a' ≤ c && c ≤ 'f' then some (c.toNat - 87)
  else if 'A' ≤ c && c ≤ 'F' then some (c.toNat - 55)
  else none

/-- JSON escape of a single character as produced by Python's
json.dumps with ensure_ascii disabled: backslash, double quote and the
named control characters get two-character escapes, the remaining
control characters get a four-hex-digit escape, and everything else is
emitted verbatim. -/
def escChar (c : Char) : List Char :=
  if c = '\\' then ['\\', '\\']
  else if c = '"' then ['\\', '"']
  else if c = '\n' then ['\\', 'n']
  else if c = '\t' then ['\\', 't']
  else if c = '\r' then ['\\', 'r']
  else if c.toNat = 8 then ['\\', 'b']
  else if c.toNat = 12 then ['\\', 'f']
  else if c.toNat < 32 then
    ['\\', 'u', '0', '0', hexCh (c.toNat / 16), hexCh (c.toNat % 16)]
  else [c]

/-- JSON escape of a character sequence. -/
def escRun : List Char → List Char
  | [] => []
  | c :: r => escChar c ++ escRun r

mutual
/-- Modelled from the spec: Python's json module (not part of this
repository) represents parsed "structured data" as nested dictionaries,
lists, strings, numbers, booleans and null.  The model restricts
numbers to integers (floating point is outside the embedding) and keeps
object members as an ordered list of key/value pairs. -/
inductive JVal where
  | jnull : JVal
  | jbool (b : Bool) : JVal
  | jnum (n : Int) : JVal
  | jstr (s : String) : JVal
  | jarr (xs : JList) : JVal
  | jobj (ms : JMems) : JVal

/-- Ordered array elements of a JSON value. -/
inductive JList where
  | nil : JList
  | cons (hd : JVal) (tl : JList) : JList

/-- Ordered object members of a JSON value. -/
inductive JMems where
  | nil : JMems
  | cons (k : String) (v : JVal) (tl : JMems) : JMems
end

/-- Indentation emitted by the pretty printer: two spaces per level,
matching json.dumps with indent set to two. -/
def indentCs (lvl : Nat) : List Char := List.replicate (2 * lvl) ' '

mutual
/-- Modelled from the spec: pretty serialization of a JSON value,
mirroring Python's json.dumps with indent two and ensure_ascii
disabled (the json module is not part of this repository). -/
def printV : JVal → Nat → List Char
  | .jnull, _ => ['n', 'u', 'l', 'l']
  | .jbool true, _ => ['t', 'r', 'u', 'e']
  | .jbool false, _ => ['f', 'a', 'l', 's', 'e']
  | .jnum n, _ => intChars n
  | .jstr s, _ => '"' :: (escRun s.data ++ ['"'])
  | .jarr .nil, _ => ['[', ']']
  | .jarr (.cons x xs), lvl =>
    '[' :: '\n' :: (indentCs (lvl + 1) ++
      (printItems (.cons x xs) (lvl + 1) ++ '\n' :: (indentCs lvl ++ [']'])))
  | .jobj .nil, _ => [lbrace, rbrace]
  | .jobj (.cons k v ms), lvl =>
    lbrace :: '\n' :: (indentCs (lvl + 1) ++
      (printMems (.cons k v ms) (lvl + 1) ++ '\n' :: (indentCs lvl ++ [rbrace])))

/-- Pretty serialization of a run of array elements at a given
indentation level, separated by a comma, newline and indentation. -/
def printItems : JList → Nat → List Char
  | .nil, _ => []
  | .cons x .nil, lvl => printV x lvl
  | .cons x (.cons y ys), lvl =>
    printV x lvl ++ ',' :: '\n' :: (indentCs lvl ++ printItems (.cons y ys) lvl)

/-- Pretty serialization of a run of object members: quoted escaped
key, colon, space, value, separated like array elements. -/
def printMems : JMems → Nat → List Char
  | .nil, _ => []
  | .cons k v .nil, lvl =>
    '"' :: (escRun k.data ++ '"' :: ':' :: ' ' :: printV v lvl)
  | .cons k v (.cons k2 v2 ms), lvl =>
    ('"' :: (escRun k.data ++ '"' :: ':' :: ' ' :: printV v lvl)) ++
      ',' :: '\n' :: (indentCs lvl ++ printMems (.cons k2 v2 ms) lvl)
end

/-- Pretty-printed JSON text of a value, starting at indentation zero. -/
def jsonDumps (v : JVal) : String := String.mk (printV v 0)

/-- Match an expected character sequence at the front of the input. -/
def expectRun : List Char → List Char → Option (List Char)
  | [], r => some r
  | _ :: _, [] => none
  | e :: es, c :: r => if c = e then expectRun es r else none

/-- Scan the body of a JSON string after the opening quote, undoing
escape sequences, rejecting unescaped control characters (Python's
strict mode) and stopping at the closing quote.  The first argument is
fuel so the definition is structural on a Nat and reduces inside the
kernel; one unit of fuel is spent per consumed source character run. -/
def scanStr : Nat → List Char → List Char → Option (List Char × List Char)
  | 0, _, _ => none
  | _ + 1, [], _ => none
  | f + 1, c :: r, acc =>
    if c = '"' then some (acc.reverse, r)
    else if c = '\\' then
      match r with
      | [] => none
      | e :: r2 =>
        if e = '"' then scanStr f r2 ('"' :: acc)
        else if e = '\\' then scanStr f r2 ('\\' :: acc)
        else if e = '/' then scanStr f r2 ('/' :: acc)
        else if e = 'b' then scanStr f r2 (Char.ofNat 8 :: acc)
        else if e = 'f' then scanStr f r2 (Char.ofNat 12 :: acc)
        else if e = 'n' then scanStr f r2 ('\n' :: acc)
        else if e = 'r' then scanStr f r2 ('\r' :: acc)
        else if e = 't' then scanStr f r2 ('\t' :: acc)
        else if e = 'u' then
          match r2 with
          | h1 :: h2 :: h3 :: h4 :: r3 =>
            match hexVal h1, hexVal h2, hexVal h3, hexVal h4 with
            | some a, some b, some c2, some d =>
              scanStr f r3 (Char.ofNat (((a * 16 + b) * 16 + c2) * 16 + d) :: acc)
            | _, _, _, _ => none
          | _ => none
        else none
    else if c.toNat < 32 then none
    else scanStr f r (c :: acc)

/-- Scan a JSON string body and package the result as a String. -/
def scanStrBody (cs : List Char) : Option (String × List Char) :=
  match scanStr (cs.length + 1) cs [] with
  | some (out, r) => some (String.mk out, r)
  | none => none

/-- Take the longest run of decimal digits from the front of the input. -/
def takeDigits : List Char → List Char × List Char
  | [] => ([], [])
  | c :: r =>
    if isDigitCh c then
      let p := takeDigits r
      (c :: p.1, p.2)
    else ([], c :: r)

/-- Accumulate the numeric value of a digit run left to right. -/
def digitsToNat : Nat → List Char → Nat
  | acc, [] => acc
  | acc, c :: r => digitsToNat (acc * 10 + digitVal c) r

/-- Scan an unsigned JSON integer: a single zero, or a nonzero digit
followed by further digits (leading zeros are rejected, as in Python's
json grammar). -/
def scanUNum : List Char → Option (Nat × List Char)
  | [] => none
  | c :: r =>
    if c = '0' then some (0, r)
    else if isDigitCh c then
      let p := takeDigits r
      some (digitsToNat (digitVal c) p.1, p.2)
    else none

mutual
/-- Modelled from the spec: recursive-descent scanner for JSON values,
mirroring Python's json.loads on the integer fragment (the json module
is not part of this repository).  The first argument is fuel so the
definition is structural and reduces inside the kernel. -/
def scanVal : Nat → List Char → Option (JVal × List Char)
  | 0, _ => none
  | f + 1, cs =>
    match cs with
    | [] => none
    | c :: r =>
      if c = 'n' then
        match expectRun ['u', 'l', 'l'] r with
        | some r2 => some (.jnull, r2)
        | none => none
      else if c = 't' then
        match expectRun ['r', 'u', 'e'] r with
        | some r2 => some (.jbool true, r2)
        | none => none
      else if c = 'f' then
        match expectRun ['a', 'l', 's', 'e'] r with
        | some r2 => some (.jbool false, r2)
        | none => none
      else if c = '"' then
        match scanStrBody r with
        | some (s, r2) => some (.jstr s, r2)
        | none => none
      else if c = '[' then
        match skipWs r with
        | [] => none
        | c2 :: r2 =>
          if c2 = ']' then some (.jarr .nil, r2)
          else
            match scanItems f (c2 :: r2) with
            | some (xs, r3) => some (.jarr xs, r3)
            | none => none
      else if c = lbrace then
        match skipWs r with
        | [] => none
        | c2 :: r2 =>
          if c2 = rbrace then some (.jobj .nil, r2)
          else
            match scanMems f (c2 :: r2) with
            | some (ms, r3) => some (.jobj ms, r3)
            | none => none
      else if c = '-' then
        match scanUNum r with
        | some (m, r2) => some (.jnum (-(m : Int)), r2)
        | none => none
      else
        match scanUNum (c :: r) with
        | some (m, r2) => some (.jnum (m : Int), r2)
        | none => none

/-- Scan one or more comma-separated array elements up to the closing
bracket (the empty array is handled by the value scanner). -/
def scanItems : Nat → List Char → Option (JList × List Char)
  | 0, _ => none
  | f + 1, cs =>
    match scanVal f cs with
    | none => none
    | some (v, r) =>
      match skipWs r with
      | [] => none
      | c2 :: r2 =>
        if c2 = ',' then
          match scanItems f (skipWs r2) with
          | some (xs, r3) => some (.cons v xs, r3)
          | none => none
        else if c2 = ']' then some (.cons v .nil, r2)
        else none

/-- Scan one or more comma-separated object members up to the closing
brace (the empty object is handled by the value scanner). -/
def scanMems : Nat → List Char → Option (JMems × List Char)
  | 0, _ => none
  | f + 1, cs =>
    match cs with
    | [] => none
    | c :: r =>
      if c = '"' then
        match scanStrBody r with
        | none => none
        | some (k, r1) =>
          match skipWs r1 with
          | [] => none
          | c2 :: r2 =>
            if c2 = ':' then
              match scanVal f (skipWs r2) with
              | none => none
              | some (v, r3) =>
                match skipWs r3 with
                | [] => none
                | c3 :: r4 =>
                  if c3 = ',' then
                    match scanMems f (skipWs r4) with
                    | some (ms, r5) => some (.cons k v ms, r5)
                    | none => none
                  else if c3 = rbrace then some (.cons k v .nil, r4)
                  else none
            else none
      else none
end

/-- Modelled from the spec: Python's json.loads applied to the whole
input, skipping surrounding whitespace and rejecting trailing junk. -/
def jsonLoads (s : String) : Option JVal :=
  match scanVal (s.data.length + 1) (skipWs s.data) with
  | some (v, r) =>
    match skipWs r with
    | [] => some v
    | _ :: _ => none
  | none => none

mutual
/-- Fuel sufficient for the value scanner to reconstruct a value. -/
def needV : JVal → Nat
  | .jnull => 1
  | .jbool _ => 1
  | .jnum _ => 1
  | .jstr _ => 1
  | .jarr xs => 1 + needL xs
  | .jobj ms => 1 + needM ms

/-- Fuel sufficient for the element scanner on an element run. -/
def needL : JList → Nat
  | .nil => 1
  | .cons v t => 1 + needV v + needL t

/-- Fuel sufficient for the member scanner on a member run. -/
def needM : JMems → Nat
  | .nil => 1
  | .cons _ v t => 1 + needV v + needM t
end

/-! ## Envelope codec (server.py lines 63-84) -/

/-- Shallow embedding of mcp.types.TextContent restricted to the two
fields the server populates. -/
structure TextContent where
  type : String
  text : String
deriving DecidableEq, Repr

/-- A Python value reaching format_text_response: either a str, or any
other object together with its str() rendering. -/
inductive PyVal where
  | str (s : String) : PyVal
  | other (reprStr : String) : PyVal
deriving DecidableEq, Repr

/-- The response payload type of the tool utilities. -/
abbrev ResponseType := List TextContent

/-- Embedding of format_text_response (server.py lines 66-80): a str
value is parsed as JSON and re-serialized pretty-printed when that
succeeds, and wrapped verbatim when parsing fails; any other value is
stringified and wrapped. -/
def format_text_response (text : PyVal) : ResponseType :=
  match text with
  | .str s =>
    match jsonLoads s with
    | some parsed => [⟨"text", jsonDumps parsed⟩]
    | none => [⟨"text", s⟩]
  | .other r => [⟨"text", r⟩]

/-- Embedding of format_error_response (server.py lines 82-84). -/
def format_error_response (error : String) : ResponseType :=
  format_text_response (.str ("Error: " ++ error))

/-! ## Substring test used by the EVS retry logic -/

/-- Boolean list-prefix test. -/
def listIsPre : List Char → List Char → Bool
  | [], _ => true
  | _ :: _, [] => false
  | a :: as, b :: bs => a = b && listIsPre as bs

/-- Boolean list-infix test: the needle occurs somewhere in the hay. -/
def listHasSub (needle : List Char) : List Char → Bool
  | [] => needle.isEmpty
  | c :: rest => listIsPre needle (c :: rest) || listHasSub needle rest

/-- Python's substring operator on str values. -/
def strContainsSub (hay needle : String) : Bool := listHasSub needle.data hay.data

/-- The auth/expiry signature test of execute_vs_tool (server.py line
107): the error text contains 401 or the phrase Session expired. -/
def isAuthFailure (e : String) : Bool :=
  strContainsSub e "401" || strContainsSub e "Session expired"

/-! ## Connection handle and database-tool dispatch (server.py 86-96) -/

/-- Modelled from the spec: the raw warehouse connection held by the
TDConn class (tools/td_connect.py is not under src/).  Per spec section
4.1 the stored handle either is absent or reports whether it is alive. -/
structure RawConn where
  alive : Bool
deriving DecidableEq, Repr

/-- Modelled from the spec: the TDConn connection-handle object; its
conn attribute is the stored raw connection or absent.  The truthiness
test on _tdconn.conn in server.py is modelled per spec section 4.1 as
the absent-or-not-alive check. -/
structure TDConn where
  conn : Option RawConn
deriving DecidableEq, Repr

/-- Truthiness of the stored handle, per the spec's liveness reading. -/
def connTruthy (t : TDConn) : Bool :=
  match t.conn with
  | none => false
  | some c => c.alive

/-- Observable outcome of one execute_db_tool dispatch: the returned
payload (or an escaping exception, which the embedding shows never
happens), the connection global after the call, and how many fresh
connects were attempted. -/
structure DBOutcome where
  result : Except String ResponseType
  tdconn : TDConn
  connectAttempts : Nat

/-- Embedding of execute_db_tool (server.py lines 86-96).  The whole
body runs inside one try block: when the stored handle is not truthy a
fresh TDConn is constructed (freshConn models that constructor call,
which may raise) and stored, then the handler runs on the stored
connection; any exception from either step is caught and converted to
an error envelope. -/
def execute_db_tool (tdconn : TDConn) (freshConn : Except String TDConn)
    (tool : TDConn → Except String PyVal) : DBOutcome :=
  if connTruthy tdconn then
    match tool tdconn with
    | .ok v => ⟨.ok (format_text_response v), tdconn, 0⟩
    | .error e => ⟨.ok (format_error_response e), tdconn, 0⟩
  else
    match freshConn with
    | .error e => ⟨.ok (format_error_response e), tdconn, 1⟩
    | .ok c =>
      match tool c with
      | .ok v => ⟨.ok (format_text_response v), c, 1⟩
      | .error e => ⟨.ok (format_error_response e), c, 1⟩

/-! ## Vector-session handle and dispatch (server.py 45-54, 99-119) -/

/-- Opaque Enterprise Vector Store session object. -/
structure EVSSession where
  sid : Nat
deriving DecidableEq, Repr

/-- Observable outcome of one execute_vs_tool call: the returned
payload or an escaping exception, the _evs global after the call, the
_enableEVS global after the call, and how many vector-store operations
and session refreshes were performed. -/
structure VSOutcome where
  result : Except String ResponseType
  evs : EVSSession
  enabledAfter : Bool
  toolCalls : Nat
  refreshCalls : Nat

/-- Embedding of execute_vs_tool (server.py lines 99-119).  When
enabled the operation runs once; on an exception whose text matches the
auth/expiry signature the session is refreshed (refreshResult models
td.evs_connect.refresh_evs, which may itself raise: that call sits
inside the except handler but outside any try, so its exception
escapes) and the operation retried exactly once, a retry failure
becoming an error envelope; a non-matching failure becomes an error
envelope.  When disabled, the fixed unavailable envelope is returned
with no vector-store interaction. -/
def execute_vs_tool (enableEVS : Bool) (evs : EVSSession)
    (tool : EVSSession → Except String PyVal)
    (refreshResult : Except String EVSSession) : VSOutcome :=
  if enableEVS then
    match tool evs with
    | .ok v => ⟨.ok (format_text_response v), evs, enableEVS, 1, 0⟩
    | .error e =>
      if isAuthFailure e then
        match refreshResult with
        | .error re => ⟨.error re, evs, enableEVS, 1, 1⟩
        | .ok evs2 =>
          match tool evs2 with
          | .ok v => ⟨.ok (format_text_response v), evs2, enableEVS, 2, 1⟩
          | .error r =>
            ⟨.ok (format_error_response ("After refresh, still failed: " ++ r)),
              evs2, enableEVS, 2, 1⟩
      else ⟨.ok (format_error_response e), evs, enableEVS, 1, 0⟩
  else
    ⟨.ok (format_error_response "Enterprise Vector Store is not available on this server."),
      evs, enableEVS, 0, 0⟩

/-- Result of the module-initialization EVS connect attempt. -/
structure EVSStartup where
  enableEVS : Bool
  evs : Option EVSSession
deriving DecidableEq, Repr

/-- Embedding of the startup block (server.py lines 45-54): _enableEVS
starts false; when the VS_NAME environment value is nonempty after
stripping, one connect is attempted (connectResult models
td.evs.get_evs), success enabling the subsystem and failure leaving it
disabled for the process lifetime. -/
def startupEVS (vsEnv : Option String) (connectResult : Except String EVSSession) :
    EVSStartup :=
  if 0 < (vsEnv.getD "").trim.length then
    match connectResult with
    | .ok s => ⟨true, some s⟩
    | .error _ => ⟨false, none⟩
  else ⟨false, none⟩

/-! ## Lifecycle: startup transport selection and shutdown (790-848) -/

/-- Observable effects of the transport selection in main (server.py
lines 790-823): the normalized transport, whether the liveness marker
file /tmp/.alive was created, and whether the branch configures a
network host and port. -/
structure StartupEffects where
  transport : String
  aliveCreated : Bool
  setsHostPort : Bool
deriving DecidableEq, Repr

/-- ASCII lower-casing of one character, as Python's str.lower acts on
the ASCII range used by transport names. -/
def lowerCh (c : Char) : Char :=
  if 'A' ≤ c && c ≤ 'Z' then Char.ofNat (c.toNat + 32) else c

/-- Lower-casing of a string, modelling str.lower on ASCII text. -/
def pyLower (s : String) : String := String.mk (s.data.map lowerCh)

/-- Embedding of main's transport dispatch (server.py lines 793 and
809-823): the MCP_TRANSPORT environment value defaults to stdio and is
lower-cased; only the sse branch creates /tmp/.alive; the sse and
streamable-http branches both configure host and port from the
environment. -/
def mainStartup (envTransport : Option String) : StartupEffects :=
  let t := pyLower (envTransport.getD "stdio")
  ⟨t, t == "sse", t == "sse" || t == "streamable-http"⟩

/-- Observable outcome of one shutdown invocation: whether the marker
file was removed, whether the Teradata connection was closed, and the
process exit code passed to os._exit. -/
structure ShutdownOutcome where
  aliveRemoved : Bool
  connClosed : Bool
  exitCode : Nat
deriving DecidableEq, Repr

/-- Embedding of shutdown (server.py lines 832-848): the marker file is
removed when present; if a shutdown is already in progress the process
exits immediately with code 1 without closing the connection; otherwise
the connection is closed, the in-progress flag set, and the process
exits with 128 plus the signal number, or 0 without a signal. -/
def shutdown (shutdown_in_progress : Bool) (aliveExists : Bool) (sig : Option Nat) :
    ShutdownOutcome :=
  let aliveRemoved := aliveExists
  if shutdown_in_progress then ⟨aliveRemoved, false, 1⟩
  else
    ⟨aliveRemoved, true,
      match sig with
      | some s => 128 + s
      | none => 0⟩

/-! ## EVS best-answer tool (evs_tools.py lines 154-199) -/

/-- A Python scalar appearing in materialized similarity-search
records: an int or a str (the comparable score types). -/
inductive PyV where
  | int (n : Int) : PyV
  | str (s : String) : PyV
deriving DecidableEq, Repr

/-- A materialized similarity-search record: an ordered dict from
column names to values. -/
abbrev EVSRecord := List (String × PyV)

/-- Python dict subscription: the value at the key, or a KeyError whose
str() is the quoted key. -/
def lookupKey (r : EVSRecord) (k : String) : Except String PyV :=
  match r with
  | [] => .error ("KeyError: " ++ k)
  | (k2, v) :: rest => if k2 = k then .ok v else lookupKey rest k

/-- Python's greater-than on record scores: defined within one scalar
type, a TypeError between mixed types. -/
def pyGtV : PyV → PyV → Except String Bool
  | .int a, .int b => .ok (decide (b < a))
  | .str a, .str b => .ok (decide (b < a))
  | _, _ => .error "TypeError: comparison not supported between mixed score types"

/-- Iteration step of Python's max with a key function: keep the first
record whose score is strictly greatest. -/
def maxGo (best : EVSRecord) (bestKey : PyV) :
    List EVSRecord → Except String EVSRecord
  | [] => .ok best
  | x :: xs =>
    match lookupKey x "score" with
    | .error e => .error e
    | .ok kx =>
      match pyGtV kx bestKey with
      | .error e => .error e
      | .ok true => maxGo x kx xs
      | .ok false => maxGo best bestKey xs

/-- Embedding of max(records, key=lambda r: r["score"]) from
evs_tools.py line 185: score extraction or comparison failures raise. -/
def maxByScore : List EVSRecord → Except String EVSRecord
  | [] => .error "max() arg is an empty sequence"
  | r :: rest =>
    match lookupKey r "score" with
    | .error e => .error e
    | .ok k0 => maxGo r k0 rest

/-- Character text of the except-branch payload of the best-answer
tool: json.dumps applied to a status/message dict (evs_tools.py line
199), with the message JSON-escaped. -/
def errorJsonChars (msg : String) : List Char :=
  lbrace :: '"' :: 's' :: 't' :: 'a' :: 't' :: 'u' :: 's' :: '"' :: ':' :: ' ' ::
  '"' :: 'e' :: 'r' :: 'r' :: 'o' :: 'r' :: '"' :: ',' :: ' ' ::
  '"' :: 'm' :: 'e' :: 's' :: 's' :: 'a' :: 'g' :: 'e' :: '"' :: ':' :: ' ' ::
  '"' :: (escRun msg.data ++ ['"', rbrace])

/-- The except-branch payload as a String. -/
def errorJson (msg : String) : String := String.mk (errorJsonChars msg)

/-- Embedding of the try-block body of
handle_evs_similarity_search_getAnswerOnly (evs_tools.py lines 170-195).
searchRecords models similarity_search followed by _materialize;
faqLookup models the FAQ-table cursor returning the answer row when one
exists.  No records yields the fixed no-match string, otherwise the
best-scoring record's kb_id is looked up, a missing row yields the
fixed no-answer string, and a found answer is returned as a plain
string; a failure anywhere is an exception raised inside the try
block. -/
def getAnswerBody (vs : EVSSession)
    (searchRecords : EVSSession → Except String (List EVSRecord))
    (faqLookup : PyV → Except String (Option String)) :
    Except String String :=
  match searchRecords vs with
  | .error e => .error e
  | .ok records =>
    if records.isEmpty then .ok "(No similar question found)"
    else
      match maxByScore records with
      | .error e => .error e
      | .ok best =>
        match lookupKey best "kb_id" with
        | .error e => .error e
        | .ok kbId =>
          match faqLookup kbId with
          | .error e => .error e
          | .ok none => .ok "(No answer for this kb_id)"
          | .ok (some answer) => .ok answer

/-- Embedding of handle_evs_similarity_search_getAnswerOnly
(evs_tools.py lines 154-199).  The get_evs() call on line 168 sits
before the try block, so a failure there escapes (getEvs models that
call, modelled from the spec: tools/evs_connect.py is not under src/
and the spec says the vector-search client raises on auth/session
failures).  A failure inside the try block becomes the status-error
JSON string produced by the except branch. -/
def handle_evs_similarity_search_getAnswerOnly
    (getEvs : Except String EVSSession)
    (searchRecords : EVSSession → Except String (List EVSRecord))
    (faqLookup : PyV → Except String (Option String)) :
    Except String String :=
  match getEvs with
  | .error e => .error e
  | .ok vs =>
    match getAnswerBody vs searchRecords faqLookup with
    | .ok s => .ok s
    | .error e => .ok (errorJson e)

/-- Inputs whose head cannot extend a digit run: empty, or headed by a
non-digit.  Every separator the pretty printer emits after a number
(comma, newline, closing bracket) qualifies. -/
def noDigitStart : List Char → Prop
  | [] => True
  | c :: _ => isDigitCh c = false

/-- Characters that can start a printed JSON value. -/
def goodStart (c : Char) : Bool :=
  c = 'n' || c = 't' || c = 'f' || c = '"' || c = '[' || c = lbrace ||
    c = '-' || isDigitCh c

/-! ## Basic facts about the scanner building blocks -/

theorem needV_pos (v : JVal) : 1 ≤ needV v := by
  cases v <;> simp [needV]

theorem needL_pos (xs : JList) : 1 ≤ needL xs := by
  cases xs with
  | nil => simp [needL]
  | cons v t => simp only [needL]; omega

theorem needM_pos (ms : JMems) : 1 ≤ needM ms := by
  cases ms with
  | nil => simp [needM]
  | cons k v t => simp only [needM]; omega

theorem skipWs_cons_not (c : Char) (r : List Char) (h : isWsChar c = false) :
    skipWs (c :: r) = c :: r := by
  simp [skipWs, h]

theorem skipWs_replicate_sp (m : Nat) (cs : List Char) :
    skipWs (List.replicate m ' ' ++ cs) = skipWs cs := by
  induction m with
  | zero => simp
  | succ k ih => simpa [List.replicate_succ, skipWs, isWsChar] using ih

theorem skipWs_indent (lvl : Nat) (cs : List Char) :
    skipWs (indentCs lvl ++ cs) = skipWs cs :=
  skipWs_replicate_sp _ _

theorem skipWs_nl (cs : List Char) : skipWs ('\n' :: cs) = skipWs cs := by
  simp [skipWs, isWsChar]

theorem digitVal_digitCh : ∀ d : Nat, d < 10 → digitVal (digitCh d) = d := by decide

theorem isDigitCh_digitCh : ∀ d : Nat, d < 10 → isDigitCh (digitCh d) = true := by decide

theorem digitCh_ne_zeroCh : ∀ d : Nat, d < 10 → 1 ≤ d → ¬ digitCh d = '0' := by decide

theorem digit_side (c : Char) (h : isDigitCh c = true) :
    isWsChar c = false ∧ c ≠ 'n' ∧ c ≠ 't' ∧ c ≠ 'f' ∧ c ≠ '"' ∧ c ≠ '[' ∧
      c ≠ lbrace ∧ c ≠ '-' ∧ c ≠ ']' ∧ c ≠ rbrace ∧ c ≠ ',' ∧ c ≠ ':' := by
  have hsp : c ≠ ' ' := fun hc => by subst hc; exact absurd h (by decide)
  have htb : c ≠ '\t' := fun hc => by subst hc; exact absurd h (by decide)
  have hnl : c ≠ '\n' := fun hc => by subst hc; exact absurd h (by decide)
  have hcr : c ≠ '\r' := fun hc => by subst hc; exact absurd h (by decide)
  refine ⟨by simp [isWsChar, hsp, htb, hnl, hcr], ?_, ?_, ?_, ?_, ?_, ?_, ?_, ?_, ?_, ?_, ?_⟩ <;>
    exact fun hc => by subst hc; exact absurd h (by decide)

theorem goodStart_side (c : Char) (h : goodStart c = true) :
    isWsChar c = false ∧ c ≠ ']' ∧ c ≠ rbrace ∧ c ≠ ',' := by
  simp only [goodStart, Bool.or_eq_true, decide_eq_true_eq] at h
  rcases h with ((((((h | h) | h) | h) | h) | h) | h) | h
  · subst h; exact ⟨by decide, by decide, by decide, by decide⟩
  · subst h; exact ⟨by decide, by decide, by decide, by decide⟩
  · subst h; exact ⟨by decide, by decide, by decide, by decide⟩
  · subst h; exact ⟨by decide, by decide, by decide, by decide⟩
  · subst h; exact ⟨by decide, by decide, by decide, by decide⟩
  · subst h; exact ⟨by decide, by decide, by decide, by decide⟩
  · subst h; exact ⟨by decide, by decide, by decide, by decide⟩
  · obtain ⟨hws, _, _, _, _, _, _, _, hrb, hrc, hco, _⟩ := digit_side c h
    exact ⟨hws, hrb, hrc, hco⟩

theorem ndg_succ (f n : Nat) (acc : List Char) :
    natDigitsGo (f + 1) n acc =
      if n < 10 then digitCh n :: acc
      else natDigitsGo f (n / 10) (digitCh (n % 10) :: acc) := rfl

theorem natDigits_def (n : Nat) : natDigits n = natDigitsGo (n + 1) n [] := rfl

theorem ndg_append : ∀ (f n : Nat), n < f →
    ∀ acc, natDigitsGo f n acc = natDigitsGo f n [] ++ acc := by
  intro f
  induction f with
  | zero => intro n h; omega
  | succ k ih =>
    intro n h acc
    by_cases h10 : n < 10
    · rw [ndg_succ, ndg_succ, if_pos h10, if_pos h10]
      simp
    · have hdiv : n / 10 < n := Nat.div_lt_self (by omega) (by omega)
      have hlt : n / 10 < k := by omega
      rw [ndg_succ, ndg_succ, if_neg h10, if_neg h10]
      rw [ih (n / 10) hlt (digitCh (n % 10) :: acc), ih (n / 10) hlt [digitCh (n % 10)]]
      simp

theorem ndg_unfold (f n : Nat) (h : n < f + 1) :
    natDigitsGo (f + 1) n [] =
      (if n < 10 then [] else natDigitsGo f (n / 10) []) ++ [digitCh (n % 10)] := by
  by_cases h10 : n < 10
  · rw [ndg_succ, if_pos h10, if_pos h10, Nat.mod_eq_of_lt h10]
    simp
  · have hdiv : n / 10 < n := Nat.div_lt_self (by omega) (by omega)
    rw [ndg_succ, if_neg h10, if_neg h10]
    rw [ndg_append f (n / 10) (by omega) [digitCh (n % 10)]]

theorem digitsToNat_append (a : Nat) (xs ys : List Char) :
    digitsToNat a (xs ++ ys) = digitsToNat (digitsToNat a xs) ys := by
  induction xs generalizing a with
  | nil => rfl
  | cons c t ih =>
    show digitsToNat (a * 10 + digitVal c) (t ++ ys) = _
    rw [ih]
    rfl

theorem ndg_value : ∀ (f n : Nat), n < f → digitsToNat 0 (natDigitsGo f n []) = n := by
  intro f
  induction f with
  | zero => intro n h; omega
  | succ k ih =>
    intro n h
    rw [ndg_unfold k n h]
    by_cases h10 : n < 10
    · rw [if_pos h10, List.nil_append]
      show 0 * 10 + digitVal (digitCh (n % 10)) = n
      rw [digitVal_digitCh (n % 10) (by omega)]
      omega
    · have hdiv : n / 10 < n := Nat.div_lt_self (by omega) (by omega)
      rw [if_neg h10, digitsToNat_append, ih (n / 10) (by omega)]
      show n / 10 * 10 + digitVal (digitCh (n % 10)) = n
      rw [digitVal_digitCh (n % 10) (by omega)]
      omega

theorem ndg_digits : ∀ (f n : Nat), n < f →
    ∀ c ∈ natDigitsGo f n [], isDigitCh c = true := by
  intro f
  induction f with
  | zero => intro n h; omega
  | succ k ih =>
    intro n h c hc
    rw [ndg_unfold k n h] at hc
    rw [List.mem_append] at hc
    cases hc with
    | inr hr =>
      rw [List.mem_singleton] at hr
      subst hr
      exact isDigitCh_digitCh (n % 10) (by omega)
    | inl hl =>
      by_cases h10 : n < 10
      · simp [h10] at hl
      · have hdiv : n / 10 < n := Nat.div_lt_self (by omega) (by omega)
        exact ih (n / 10) (by omega) c (by simpa [h10] using hl)

theorem ndg_ne_nil (f n : Nat) (h : n < f) : natDigitsGo f n [] ≠ [] := by
  cases f with
  | zero => omega
  | succ k => rw [ndg_unfold k n h]; simp

theorem ndg_head_pos : ∀ (f n : Nat), n < f → 1 ≤ n →
    ∃ d t, natDigitsGo f n [] = digitCh d :: t ∧ 1 ≤ d ∧ d < 10 := by
  intro f
  induction f with
  | zero => intro n h; omega
  | succ k ih =>
    intro n h h1
    by_cases h10 : n < 10
    · exact ⟨n, [], by rw [ndg_succ, if_pos h10], h1, h10⟩
    · have hdiv : n / 10 < n := Nat.div_lt_self (by omega) (by omega)
      obtain ⟨d, t, heq, hd1, hd10⟩ := ih (n / 10) (by omega) (by omega)
      refine ⟨d, t ++ [digitCh (n % 10)], ?_, hd1, hd10⟩
      rw [ndg_unfold k n h, if_neg h10, heq]
      simp

theorem natDigits_value (n : Nat) : digitsToNat 0 (natDigits n) = n :=
  ndg_value (n + 1) n (by omega)

theorem natDigits_cons_digit (n : Nat) :
    ∃ c t, natDigits n = c :: t ∧ isDigitCh c = true := by
  rcases hnd : natDigits n with _ | ⟨c, t⟩
  · exact absurd hnd (ndg_ne_nil (n + 1) n (by omega))
  · refine ⟨c, t, rfl, ?_⟩
    exact ndg_digits (n + 1) n (by omega) c
      (by rw [show natDigitsGo (n + 1) n [] = c :: t from hnd]; simp)

theorem takeDigits_stop (cs : List Char) (h : noDigitStart cs) :
    takeDigits cs = ([], cs) := by
  cases cs with
  | nil => rfl
  | cons c t => simp [takeDigits, show isDigitCh c = false from h]

theorem takeDigits_run : ∀ (ds rest : List Char), (∀ c ∈ ds, isDigitCh c = true) →
    noDigitStart rest → takeDigits (ds ++ rest) = (ds, rest) := by
  intro ds
  induction ds with
  | nil => intro rest _ h; simpa using takeDigits_stop rest h
  | cons c t ih =>
    intro rest hds h
    have hc : isDigitCh c = true := hds c (by simp)
    simp [takeDigits, hc, ih rest (fun x hx => hds x (by simp [hx])) h]

theorem scanUNum_natDigits (n : Nat) (rest : List Char) (h : noDigitStart rest) :
    scanUNum (natDigits n ++ rest) = some (n, rest) := by
  by_cases h1 : 1 ≤ n
  · obtain ⟨d, t, heq, hd1, hd10⟩ := ndg_head_pos (n + 1) n (by omega) h1
    have hdig : isDigitCh (digitCh d) = true := isDigitCh_digitCh d hd10
    have hne0 : ¬ digitCh d = '0' := digitCh_ne_zeroCh d hd10 hd1
    have hts : ∀ c ∈ t, isDigitCh c = true := by
      intro c hc
      exact ndg_digits (n + 1) n (by omega) c (by rw [heq]; simp [hc])
    have hnd : natDigits n = digitCh d :: t := heq
    rw [hnd, List.cons_append]
    show (if digitCh d = '0' then some (0, t ++ rest)
      else if isDigitCh (digitCh d) = true then
        some (digitsToNat (digitVal (digitCh d)) (takeDigits (t ++ rest)).1,
          (takeDigits (t ++ rest)).2)
      else none) = some (n, rest)
    rw [if_neg hne0, if_pos hdig, takeDigits_run t rest hts h]
    have hval : digitsToNat (digitVal (digitCh d)) t = n := by
      have h2 : digitsToNat 0 (digitCh d :: t) = n := by rw [← hnd]; exact natDigits_value n
      have h3 : digitsToNat 0 (digitCh d :: t) =
          digitsToNat (0 * 10 + digitVal (digitCh d)) t := rfl
      rw [h3] at h2
      simpa using h2
    rw [hval]
  · have h0 : n = 0 := by omega
    subst h0
    have hz : natDigits 0 = ['0'] := rfl
    rw [hz]
    simp [scanUNum]

/-! ## String escaping round trip -/

theorem hexVal_hexCh : ∀ d : Nat, d < 16 → hexVal (hexCh d) = some d := by decide

theorem scanStr_esc (f : Nat) (c : Char) (acc rest : List Char) :
    scanStr (f + 1) (escChar c ++ rest) acc = scanStr f rest (c :: acc) := by
  by_cases h1 : c = '\\'
  · subst h1; rfl
  by_cases h2 : c = '"'
  · subst h2; rfl
  by_cases h3 : c = '\n'
  · subst h3; rfl
  by_cases h4 : c = '\t'
  · subst h4; rfl
  by_cases h5 : c = '\r'
  · subst h5; rfl
  by_cases h6 : c.toNat = 8
  · have hesc : escChar c = ['\\', 'b'] := by
      simp only [escChar, if_neg h1, if_neg h2, if_neg h3, if_neg h4, if_neg h5, if_pos h6]
    rw [hesc]
    show scanStr f rest (Char.ofNat 8 :: acc) = scanStr f rest (c :: acc)
    rw [show Char.ofNat 8 = c from by rw [← h6]; exact Char.ofNat_toNat c]
  by_cases h7 : c.toNat = 12
  · have hesc : escChar c = ['\\', 'f'] := by
      simp only [escChar, if_neg h1, if_neg h2, if_neg h3, if_neg h4, if_neg h5, if_neg h6,
        if_pos h7]
    rw [hesc]
    show scanStr f rest (Char.ofNat 12 :: acc) = scanStr f rest (c :: acc)
    rw [show Char.ofNat 12 = c from by rw [← h7]; exact Char.ofNat_toNat c]
  by_cases h8 : c.toNat < 32
  · have hesc : escChar c =
        ['\\', 'u', '0', '0', hexCh (c.toNat / 16), hexCh (c.toNat % 16)] := by
      simp only [escChar, if_neg h1, if_neg h2, if_neg h3, if_neg h4, if_neg h5, if_neg h6,
        if_neg h7, if_pos h8]
    have hhi : hexVal (hexCh (c.toNat / 16)) = some (c.toNat / 16) :=
      hexVal_hexCh _ (by omega)
    have hlo : hexVal (hexCh (c.toNat % 16)) = some (c.toNat % 16) :=
      hexVal_hexCh _ (by omega)
    rw [hesc]
    have hstep : scanStr (f + 1)
        ('\\' :: 'u' :: '0' :: '0' :: hexCh (c.toNat / 16) :: hexCh (c.toNat % 16) :: rest)
        acc =
        (match hexVal '0', hexVal '0', hexVal (hexCh (c.toNat / 16)),
            hexVal (hexCh (c.toNat % 16)) with
         | some a, some b, some x, some y =>
           scanStr f rest (Char.ofNat (((a * 16 + b) * 16 + x) * 16 + y) :: acc)
         | _, _, _, _ => none) := rfl
    rw [show (['\\', 'u', '0', '0', hexCh (c.toNat / 16), hexCh (c.toNat % 16)] ++ rest)
        = '\\' :: 'u' :: '0' :: '0' :: hexCh (c.toNat / 16) :: hexCh (c.toNat % 16) :: rest
      from rfl, hstep, hhi, hlo]
    show scanStr f rest
        (Char.ofNat (((0 * 16 + 0) * 16 + c.toNat / 16) * 16 + c.toNat % 16) :: acc) =
      scanStr f rest (c :: acc)
    have harith : ((0 * 16 + 0) * 16 + c.toNat / 16) * 16 + c.toNat % 16 = c.toNat := by
      omega
    rw [harith, Char.ofNat_toNat]
  · have hesc : escChar c = [c] := by
      simp only [escChar, if_neg h1, if_neg h2, if_neg h3, if_neg h4, if_neg h5, if_neg h6,
        if_neg h7, if_neg h8]
    rw [hesc]
    show scanStr (f + 1) (c :: rest) acc = scanStr f rest (c :: acc)
    simp only [scanStr]
    rw [if_neg h2, if_neg h1, if_neg h8]

theorem scanStr_escRun : ∀ (cs : List Char) (f : Nat) (acc rest : List Char),
    cs.length ≤ f →
    scanStr (f + 1) (escRun cs ++ '"' :: rest) acc = some (acc.reverse ++ cs, rest) := by
  intro cs
  induction cs with
  | nil =>
    intro f acc rest _
    show scanStr (f + 1) ('"' :: rest) acc = _
    simp [scanStr]
  | cons c t ih =>
    intro f acc rest hf
    cases f with
    | zero => simp at hf
    | succ g =>
      rw [show escRun (c :: t) = escChar c ++ escRun t from rfl, List.append_assoc,
        scanStr_esc, ih g (c :: acc) rest (by simpa using hf)]
      simp

theorem escChar_len_pos (c : Char) : 1 ≤ (escChar c).length := by
  unfold escChar
  split_ifs <;> simp

theorem escRun_len_ge : ∀ cs : List Char, cs.length ≤ (escRun cs).length := by
  intro cs
  induction cs with
  | nil => simp [escRun]
  | cons c t ih =>
    have h := escChar_len_pos c
    simp only [escRun, List.length_append, List.length_cons]
    omega

theorem scanStrBody_escRun (s : String) (rest : List Char) :
    scanStrBody (escRun s.data ++ '"' :: rest) = some (s, rest) := by
  unfold scanStrBody
  rw [scanStr_escRun s.data (escRun s.data ++ '"' :: rest).length [] rest
    (by have := escRun_len_ge s.data; simp only [List.length_append, List.length_cons]; omega)]
  show some (String.mk (List.reverse [] ++ s.data), rest) = some (s, rest)
  rw [show List.reverse ([] : List Char) ++ s.data = s.data by simp]

/-! ## Heads of printed values -/

theorem intChars_ne_nil (n : Int) : intChars n ≠ [] := by
  by_cases hn : n < 0
  · show (if n < 0 then '-' :: natDigits n.natAbs else natDigits n.natAbs) ≠ []
    rw [if_pos hn]
    simp
  · show (if n < 0 then '-' :: natDigits n.natAbs else natDigits n.natAbs) ≠ []
    rw [if_neg hn]
    exact ndg_ne_nil (n.natAbs + 1) n.natAbs (by omega)

theorem printV_head (v : JVal) (lvl : Nat) :
    ∃ c t, printV v lvl = c :: t ∧ goodStart c = true := by
  cases v with
  | jnull => exact ⟨'n', _, rfl, by decide⟩
  | jbool b =>
    cases b with
    | false => exact ⟨'f', _, rfl, by decide⟩
    | true => exact ⟨'t', _, rfl, by decide⟩
  | jnum n =>
    by_cases hn : n < 0
    · refine ⟨'-', natDigits n.natAbs, ?_, by decide⟩
      show (if n < 0 then '-' :: natDigits n.natAbs else natDigits n.natAbs) = _
      rw [if_pos hn]
    · obtain ⟨c, t, heq, hc⟩ := natDigits_cons_digit n.natAbs
      refine ⟨c, t, ?_, by simp [goodStart, hc]⟩
      show (if n < 0 then '-' :: natDigits n.natAbs else natDigits n.natAbs) = _
      rw [if_neg hn, heq]
  | jstr s => exact ⟨'"', _, rfl, by decide⟩
  | jarr xs =>
    cases xs with
    | nil => exact ⟨'[', _, rfl, by decide⟩
    | cons x t => exact ⟨'[', _, rfl, by decide⟩
  | jobj ms =>
    cases ms with
    | nil => exact ⟨lbrace, _, rfl, by decide⟩
    | cons k v t => exact ⟨lbrace, _, rfl, by decide⟩

theorem printItems_head (x : JVal) (xs : JList) (lvl : Nat) :
    ∃ c t, printItems (.cons x xs) lvl = c :: t ∧ goodStart c = true := by
  obtain ⟨c, t, heq, hgs⟩ := printV_head x lvl
  cases xs with
  | nil =>
    exact ⟨c, t, by rw [show printItems (.cons x .nil) lvl = printV x lvl from rfl, heq], hgs⟩
  | cons y ys =>
    refine ⟨c, t ++ (',' :: '\n' :: (indentCs lvl ++ printItems (.cons y ys) lvl)), ?_, hgs⟩
    rw [show printItems (.cons x (.cons y ys)) lvl =
      printV x lvl ++ ',' :: '\n' :: (indentCs lvl ++ printItems (.cons y ys) lvl) from rfl,
      heq]
    rfl

theorem printMems_head (k : String) (v : JVal) (ms : JMems) (lvl : Nat) :
    ∃ t, printMems (.cons k v ms) lvl = '"' :: t := by
  cases ms with
  | nil => exact ⟨_, rfl⟩
  | cons k2 v2 t => exact ⟨_, rfl⟩

/-! ## Fuel bounds for the scanner on printed output -/

mutual
theorem needV_le : ∀ (v : JVal) (lvl : Nat), needV v ≤ (printV v lvl).length
  | .jnull, _ => by simp [needV, printV]
  | .jbool b, _ => by cases b <;> simp [needV, printV]
  | .jnum n, lvl => by
    have h : 1 ≤ (intChars n).length := List.length_pos.mpr (intChars_ne_nil n)
    simpa [needV, printV] using h
  | .jstr s, _ => by simp only [needV, printV, List.length_cons]; omega
  | .jarr .nil, _ => by simp [needV, needL, printV]
  | .jarr (.cons x xs), lvl => by
    have h := needL_le (.cons x xs) (lvl + 1)
    simp only [needV, printV, List.length_cons, List.length_append, indentCs,
      List.length_replicate] at h ⊢
    omega
  | .jobj .nil, _ => by simp [needV, needM, printV]
  | .jobj (.cons k v ms), lvl => by
    have h := needM_le (.cons k v ms) (lvl + 1)
    simp only [needV, printV, List.length_cons, List.length_append, indentCs,
      List.length_replicate] at h ⊢
    omega

theorem needL_le : ∀ (xs : JList) (lvl : Nat), needL xs ≤ (printItems xs lvl).length + 2
  | .nil, _ => by simp [needL, printItems]
  | .cons x .nil, lvl => by
    have h := needV_le x lvl
    simp only [needL, printItems]
    omega
  | .cons x (.cons y ys), lvl => by
    have h1 := needV_le x lvl
    have h2 := needL_le (.cons y ys) lvl
    simp only [needL, printItems, List.length_append, List.length_cons, indentCs,
      List.length_replicate] at h2 ⊢
    omega

theorem needM_le : ∀ (ms : JMems) (lvl : Nat), needM ms ≤ (printMems ms lvl).length + 2
  | .nil, _ => by simp [needM, printMems]
  | .cons k v .nil, lvl => by
    have h := needV_le v lvl
    simp only [needM, printMems, List.length_cons, List.length_append]
    omega
  | .cons k v (.cons k2 v2 ms), lvl => by
    have h1 := needV_le v lvl
    have h2 := needM_le (.cons k2 v2 ms) lvl
    simp only [needM, printMems, List.length_append, List.length_cons, indentCs,
      List.length_replicate] at h2 ⊢
    omega
end

/-! ## One-step unfoldings of the value scanner -/

theorem noDigitStart_cons (c : Char) (r : List Char) (h : isDigitCh c = false) :
    noDigitStart (c :: r) := h

theorem scanVal_step_arr (f : Nat) (r : List Char) :
    scanVal (f + 1) ('[' :: r) =
      (match skipWs r with
       | [] => none
       | c2 :: r2 =>
         if c2 = ']' then some (.jarr .nil, r2)
         else
           match scanItems f (c2 :: r2) with
           | some (xs, r3) => some (.jarr xs, r3)
           | none => none) := rfl

theorem scanVal_step_obj (f : Nat) (r : List Char) :
    scanVal (f + 1) (lbrace :: r) =
      (match skipWs r with
       | [] => none
       | c2 :: r2 =>
         if c2 = rbrace then some (.jobj .nil, r2)
         else
           match scanMems f (c2 :: r2) with
           | some (ms, r3) => some (.jobj ms, r3)
           | none => none) := rfl

theorem scanVal_step_str (f : Nat) (r : List Char) :
    scanVal (f + 1) ('"' :: r) =
      (match scanStrBody r with
       | some (s, r2) => some (.jstr s, r2)
       | none => none) := rfl

theorem scanVal_step_minus (f : Nat) (r : List Char) :
    scanVal (f + 1) ('-' :: r) =
      (match scanUNum r with
       | some (m, r2) => some (.jnum (-(m : Int)), r2)
       | none => none) := rfl

theorem scanVal_digit (f : Nat) (c : Char) (r : List Char) (h : isDigitCh c = true) :
    scanVal (f + 1) (c :: r) =
      (match scanUNum (c :: r) with
       | some (m, r2) => some (.jnum (m : Int), r2)
       | none => none) := by
  obtain ⟨_, hn, ht, hf, hq, hbk, hbr, hm, _, _, _, _⟩ := digit_side c h
  simp only [scanVal]
  rw [if_neg hn, if_neg ht, if_neg hf, if_neg hq, if_neg hbk, if_neg hbr, if_neg hm]

theorem scanVal_arr_go (f : Nat) (r : List Char) (c2 : Char) (r2 : List Char)
    (hskip : skipWs r = c2 :: r2) (hne : c2 ≠ ']') :
    scanVal (f + 1) ('[' :: r) =
      (match scanItems f (c2 :: r2) with
       | some (xs, r3) => some (.jarr xs, r3)
       | none => none) := by
  rw [scanVal_step_arr, hskip]
  show (if c2 = ']' then some (JVal.jarr .nil, r2)
    else
      match scanItems f (c2 :: r2) with
      | some (xs, r3) => some (.jarr xs, r3)
      | none => none) = _
  rw [if_neg hne]

theorem scanVal_obj_go (f : Nat) (r : List Char) (c2 : Char) (r2 : List Char)
    (hskip : skipWs r = c2 :: r2) (hne : c2 ≠ rbrace) :
    scanVal (f + 1) (lbrace :: r) =
      (match scanMems f (c2 :: r2) with
       | some (ms, r3) => some (.jobj ms, r3)
       | none => none) := by
  rw [scanVal_step_obj, hskip]
  show (if c2 = rbrace then some (JVal.jobj .nil, r2)
    else
      match scanMems f (c2 :: r2) with
      | some (ms, r3) => some (.jobj ms, r3)
      | none => none) = _
  rw [if_neg hne]

theorem scanItems_step (f : Nat) (cs : List Char) :
    scanItems (f + 1) cs =
      (match scanVal f cs with
       | none => none
       | some (v, r) =>
         match skipWs r with
         | [] => none
         | c2 :: r2 =>
           if c2 = ',' then
             match scanItems f (skipWs r2) with
             | some (xs, r3) => some (.cons v xs, r3)
             | none => none
           else if c2 = ']' then some (.cons v .nil, r2)
           else none) := rfl

theorem scanMems_step_key (f : Nat) (r : List Char) :
    scanMems (f + 1) ('"' :: r) =
      (match scanStrBody r with
       | none => none
       | some (k, r1) =>
         match skipWs r1 with
         | [] => none
         | c2 :: r2 =>
           if c2 = ':' then
             match scanVal f (skipWs r2) with
             | none => none
             | some (v, r3) =>
               match skipWs r3 with
               | [] => none
               | c3 :: r4 =>
                 if c3 = ',' then
                   match scanMems f (skipWs r4) with
                   | some (ms, r5) => some (.cons k v ms, r5)
                   | none => none
                 else if c3 = rbrace then some (.cons k v .nil, r4)
                 else none
           else none) := rfl

/-! ## The scanner inverts the pretty printer -/

theorem scan_print : ∀ f : Nat,
    (∀ (v : JVal) (lvl : Nat) (rest : List Char), needV v ≤ f → noDigitStart rest →
      scanVal f (printV v lvl ++ rest) = some (v, rest)) ∧
    (∀ (x : JVal) (xs : JList) (lvl lvl2 : Nat) (rest : List Char),
      needL (.cons x xs) ≤ f →
      scanItems f
        (printItems (.cons x xs) lvl ++ '\n' :: (indentCs lvl2 ++ ']' :: rest)) =
        some (.cons x xs, rest)) ∧
    (∀ (k : String) (v : JVal) (ms : JMems) (lvl lvl2 : Nat) (rest : List Char),
      needM (.cons k v ms) ≤ f →
      scanMems f
        (printMems (.cons k v ms) lvl ++ '\n' :: (indentCs lvl2 ++ rbrace :: rest)) =
        some (.cons k v ms, rest)) := by
  intro f
  induction f with
  | zero =>
    refine ⟨fun v _ _ hn _ => ?_, fun x xs _ _ _ hn => ?_, fun k v ms _ _ _ hn => ?_⟩
    · have := needV_pos v; omega
    · have := needL_pos (JList.cons x xs); omega
    · have := needM_pos (JMems.cons k v ms); omega
  | succ f ih =>
    obtain ⟨ihV, ihL, ihM⟩ := ih
    refine ⟨?_, ?_, ?_⟩
    · intro v lvl rest hn hr
      cases v with
      | jnull => rfl
      | jbool b => cases b <;> rfl
      | jnum n =>
        by_cases hneg : n < 0
        · have hish : printV (.jnum n) lvl = '-' :: natDigits n.natAbs := by
            show (if n < 0 then '-' :: natDigits n.natAbs else natDigits n.natAbs) = _
            rw [if_pos hneg]
          rw [hish, List.cons_append, scanVal_step_minus,
            scanUNum_natDigits n.natAbs rest hr]
          show some (JVal.jnum (-(n.natAbs : Int)), rest) = some (.jnum n, rest)
          have hval : -((n.natAbs : Nat) : Int) = n := by omega
          rw [hval]
        · have hish : printV (.jnum n) lvl = natDigits n.natAbs := by
            show (if n < 0 then '-' :: natDigits n.natAbs else natDigits n.natAbs) = _
            rw [if_neg hneg]
          obtain ⟨c, t, heq, hdig⟩ := natDigits_cons_digit n.natAbs
          rw [hish, heq, List.cons_append, scanVal_digit f c (t ++ rest) hdig,
            ← List.cons_append, ← heq, scanUNum_natDigits n.natAbs rest hr]
          show some (JVal.jnum ((n.natAbs : Nat) : Int), rest) = some (.jnum n, rest)
          have hval : ((n.natAbs : Nat) : Int) = n := by omega
          rw [hval]
      | jstr s =>
        have hshape : printV (.jstr s) lvl ++ rest =
            '"' :: (escRun s.data ++ '"' :: rest) := by
          show ('"' :: (escRun s.data ++ ['"'])) ++ rest = _
          simp
        rw [hshape, scanVal_step_str, scanStrBody_escRun]
      | jarr xs =>
        cases xs with
        | nil => rfl
        | cons x txs =>
          obtain ⟨c0, t0, hpi, hgs⟩ := printItems_head x txs (lvl + 1)
          obtain ⟨hws0, hnb0, _, _⟩ := goodStart_side c0 hgs
          have hshape : printV (.jarr (.cons x txs)) lvl ++ rest =
              '[' :: ('\n' :: (indentCs (lvl + 1) ++
                (printItems (.cons x txs) (lvl + 1) ++
                  '\n' :: (indentCs lvl ++ ']' :: rest)))) := by
            show ('[' :: '\n' :: (indentCs (lvl + 1) ++
                (printItems (.cons x txs) (lvl + 1) ++
                  '\n' :: (indentCs lvl ++ [']'])))) ++ rest = _
            simp
          have hskip : skipWs ('\n' :: (indentCs (lvl + 1) ++
              (printItems (.cons x txs) (lvl + 1) ++
                '\n' :: (indentCs lvl ++ ']' :: rest)))) =
              c0 :: (t0 ++ '\n' :: (indentCs lvl ++ ']' :: rest)) := by
            rw [skipWs_nl, skipWs_indent, hpi, List.cons_append,
              skipWs_cons_not _ _ hws0]
          rw [hshape,
            scanVal_arr_go f _ c0 (t0 ++ '\n' :: (indentCs lvl ++ ']' :: rest)) hskip hnb0,
            ← List.cons_append, ← hpi,
            ihL x txs (lvl + 1) lvl rest (by simp only [needV] at hn; omega)]
      | jobj ms =>
        cases ms with
        | nil => rfl
        | cons k v tms =>
          obtain ⟨t0, hpm⟩ := printMems_head k v tms (lvl + 1)
          have hshape : printV (.jobj (.cons k v tms)) lvl ++ rest =
              lbrace :: ('\n' :: (indentCs (lvl + 1) ++
                (printMems (.cons k v tms) (lvl + 1) ++
                  '\n' :: (indentCs lvl ++ rbrace :: rest)))) := by
            show (lbrace :: '\n' :: (indentCs (lvl + 1) ++
                (printMems (.cons k v tms) (lvl + 1) ++
                  '\n' :: (indentCs lvl ++ [rbrace])))) ++ rest = _
            simp
          have hskip : skipWs ('\n' :: (indentCs (lvl + 1) ++
              (printMems (.cons k v tms) (lvl + 1) ++
                '\n' :: (indentCs lvl ++ rbrace :: rest)))) =
              '"' :: (t0 ++ '\n' :: (indentCs lvl ++ rbrace :: rest)) := by
            rw [skipWs_nl, skipWs_indent, hpm, List.cons_append,
              skipWs_cons_not _ _ (by decide)]
          rw [hshape,
            scanVal_obj_go f _ '"' (t0 ++ '\n' :: (indentCs lvl ++ rbrace :: rest)) hskip
              (by decide),
            ← List.cons_append, ← hpm,
            ihM k v tms (lvl + 1) lvl rest (by simp only [needV] at hn; omega)]
    · intro x xs lvl lvl2 rest hn
      cases xs with
      | nil =>
        have hval := ihV x lvl ('\n' :: (indentCs lvl2 ++ ']' :: rest))
          (by simp only [needL] at hn; omega)
          (noDigitStart_cons _ _ (by decide))
        have hsk : skipWs ('\n' :: (indentCs lvl2 ++ ']' :: rest)) = ']' :: rest := by
          rw [skipWs_nl, skipWs_indent, skipWs_cons_not _ _ (by decide)]
        rw [scanItems_step,
          show printItems (.cons x .nil) lvl ++ '\n' :: (indentCs lvl2 ++ ']' :: rest) =
            printV x lvl ++ '\n' :: (indentCs lvl2 ++ ']' :: rest) from rfl,
          hval]
        show (match skipWs ('\n' :: (indentCs lvl2 ++ ']' :: rest)) with
          | [] => none
          | c2 :: r2 =>
            if c2 = ',' then
              match scanItems f (skipWs r2) with
              | some (xs, r3) => some (JList.cons x xs, r3)
              | none => none
            else if c2 = ']' then some (JList.cons x .nil, r2)
            else none) = some (JList.cons x .nil, rest)
        rw [hsk]
        rfl
      | cons y ys =>
        have hshape : printItems (.cons x (.cons y ys)) lvl ++
            '\n' :: (indentCs lvl2 ++ ']' :: rest) =
            printV x lvl ++ ',' :: '\n' :: (indentCs lvl ++
              (printItems (.cons y ys) lvl ++ '\n' :: (indentCs lvl2 ++ ']' :: rest))) := by
          show (printV x lvl ++ ',' :: '\n' :: (indentCs lvl ++ printItems (.cons y ys) lvl)) ++
            '\n' :: (indentCs lvl2 ++ ']' :: rest) = _
          simp
        have hval := ihV x lvl (',' :: '\n' :: (indentCs lvl ++
            (printItems (.cons y ys) lvl ++ '\n' :: (indentCs lvl2 ++ ']' :: rest))))
          (by simp only [needL] at hn; omega)
          (noDigitStart_cons _ _ (by decide))
        have hsk2 : skipWs ('\n' :: (indentCs lvl ++
            (printItems (.cons y ys) lvl ++ '\n' :: (indentCs lvl2 ++ ']' :: rest)))) =
            printItems (.cons y ys) lvl ++ '\n' :: (indentCs lvl2 ++ ']' :: rest) := by
          obtain ⟨c1, t1, hp1, hg1⟩ := printItems_head y ys lvl
          rw [skipWs_nl, skipWs_indent, hp1, List.cons_append,
            skipWs_cons_not _ _ (goodStart_side c1 hg1).1]
        rw [scanItems_step, hshape, hval]
        show (match skipWs (',' :: '\n' :: (indentCs lvl ++
            (printItems (.cons y ys) lvl ++ '\n' :: (indentCs lvl2 ++ ']' :: rest)))) with
          | [] => none
          | c2 :: r2 =>
            if c2 = ',' then
              match scanItems f (skipWs r2) with
              | some (xs, r3) => some (JList.cons x xs, r3)
              | none => none
            else if c2 = ']' then some (JList.cons x .nil, r2)
            else none) = some (JList.cons x (.cons y ys), rest)
        rw [skipWs_cons_not _ _ (by decide)]
        show (match scanItems f (skipWs ('\n' :: (indentCs lvl ++
            (printItems (.cons y ys) lvl ++ '\n' :: (indentCs lvl2 ++ ']' :: rest))))) with
          | some (xs, r3) => some (JList.cons x xs, r3)
          | none => none) = some (JList.cons x (.cons y ys), rest)
        rw [hsk2, ihL y ys lvl lvl2 rest (by simp only [needL] at hn ⊢; omega)]
    · intro k v ms lvl lvl2 rest hn
      cases ms with
      | nil =>
        have hshape : printMems (.cons k v .nil) lvl ++
            '\n' :: (indentCs lvl2 ++ rbrace :: rest) =
            '"' :: (escRun k.data ++ '"' :: (':' :: ' ' ::
              (printV v lvl ++ '\n' :: (indentCs lvl2 ++ rbrace :: rest)))) := by
          show ('"' :: (escRun k.data ++ '"' :: ':' :: ' ' :: printV v lvl)) ++
            '\n' :: (indentCs lvl2 ++ rbrace :: rest) = _
          simp
        have hval := ihV v lvl ('\n' :: (indentCs lvl2 ++ rbrace :: rest))
          (by simp only [needM] at hn; omega)
          (noDigitStart_cons _ _ (by decide))
        have hskv : skipWs (' ' :: (printV v lvl ++
            '\n' :: (indentCs lvl2 ++ rbrace :: rest))) =
            printV v lvl ++ '\n' :: (indentCs lvl2 ++ rbrace :: rest) := by
          obtain ⟨c1, t1, hp1, hg1⟩ := printV_head v lvl
          rw [show skipWs (' ' :: (printV v lvl ++
              '\n' :: (indentCs lvl2 ++ rbrace :: rest))) =
              skipWs (printV v lvl ++ '\n' :: (indentCs lvl2 ++ rbrace :: rest)) from by
            simp [skipWs, isWsChar]]
          rw [hp1, List.cons_append, skipWs_cons_not _ _ (goodStart_side c1 hg1).1]
        have hsk3 : skipWs ('\n' :: (indentCs lvl2 ++ rbrace :: rest)) = rbrace :: rest := by
          rw [skipWs_nl, skipWs_indent, skipWs_cons_not _ _ (by decide)]
        rw [hshape, scanMems_step_key, scanStrBody_escRun]
        show (match skipWs (':' :: ' ' :: (printV v lvl ++
            '\n' :: (indentCs lvl2 ++ rbrace :: rest))) with
          | [] => none
          | c2 :: r2 =>
            if c2 = ':' then
              match scanVal f (skipWs r2) with
              | none => none
              | some (v2, r3) =>
                match skipWs r3 with
                | [] => none
                | c3 :: r4 =>
                  if c3 = ',' then
                    match scanMems f (skipWs r4) with
                    | some (ms2, r5) => some (JMems.cons k v2 ms2, r5)
                    | none => none
                  else if c3 = rbrace then some (JMems.cons k v2 .nil, r4)
                  else none
            else none) = some (JMems.cons k v .nil, rest)
        rw [skipWs_cons_not _ _ (by decide)]
        show (match scanVal f (skipWs (' ' :: (printV v lvl ++
            '\n' :: (indentCs lvl2 ++ rbrace :: rest)))) with
          | none => none
          | some (v2, r3) =>
            match skipWs r3 with
            | [] => none
            | c3 :: r4 =>
              if c3 = ',' then
                match scanMems f (skipWs r4) with
                | some (ms2, r5) => some (JMems.cons k v2 ms2, r5)
                | none => none
              else if c3 = rbrace then some (JMems.cons k v2 .nil, r4)
              else none) = some (JMems.cons k v .nil, rest)
        rw [hskv, hval]
        show (match skipWs ('\n' :: (indentCs lvl2 ++ rbrace :: rest)) with
          | [] => none
          | c3 :: r4 =>
            if c3 = ',' then
              match scanMems f (skipWs r4) with
              | some (ms2, r5) => some (JMems.cons k v ms2, r5)
              | none => none
            else if c3 = rbrace then some (JMems.cons k v .nil, r4)
            else none) = some (JMems.cons k v .nil, rest)
        rw [hsk3]
        rfl
      | cons k2 v2 tms =>
        have hshape : printMems (.cons k v (.cons k2 v2 tms)) lvl ++
            '\n' :: (indentCs lvl2 ++ rbrace :: rest) =
            '"' :: (escRun k.data ++ '"' :: (':' :: ' ' ::
              (printV v lvl ++ ',' :: '\n' :: (indentCs lvl ++
                (printMems (.cons k2 v2 tms) lvl ++
                  '\n' :: (indentCs lvl2 ++ rbrace :: rest)))))) := by
          show (('"' :: (escRun k.data ++ '"' :: ':' :: ' ' :: printV v lvl)) ++
            ',' :: '\n' :: (indentCs lvl ++ printMems (.cons k2 v2 tms) lvl)) ++
            '\n' :: (indentCs lvl2 ++ rbrace :: rest) = _
          simp
        have hval := ihV v lvl (',' :: '\n' :: (indentCs lvl ++
            (printMems (.cons k2 v2 tms) lvl ++ '\n' :: (indentCs lvl2 ++ rbrace :: rest))))
          (by simp only [needM] at hn; omega)
          (noDigitStart_cons _ _ (by decide))
        have hskv : skipWs (' ' :: (printV v lvl ++ ',' :: '\n' :: (indentCs lvl ++
            (printMems (.cons k2 v2 tms) lvl ++
              '\n' :: (indentCs lvl2 ++ rbrace :: rest))))) =
            printV v lvl ++ ',' :: '\n' :: (indentCs lvl ++
              (printMems (.cons k2 v2 tms) lvl ++
                '\n' :: (indentCs lvl2 ++ rbrace :: rest))) := by
          obtain ⟨c1, t1, hp1, hg1⟩ := printV_head v lvl
          rw [show skipWs (' ' :: (printV v lvl ++ ',' :: '\n' :: (indentCs lvl ++
              (printMems (.cons k2 v2 tms) lvl ++
                '\n' :: (indentCs lvl2 ++ rbrace :: rest))))) =
              skipWs (printV v lvl ++ ',' :: '\n' :: (indentCs lvl ++
                (printMems (.cons k2 v2 tms) lvl ++
                  '\n' :: (indentCs lvl2 ++ rbrace :: rest)))) from by
            simp [skipWs, isWsChar]]
          rw [hp1, List.cons_append, skipWs_cons_not _ _ (goodStart_side c1 hg1).1]
        have hskm : skipWs ('\n' :: (indentCs lvl ++
            (printMems (.cons k2 v2 tms) lvl ++
              '\n' :: (indentCs lvl2 ++ rbrace :: rest)))) =
            printMems (.cons k2 v2 tms) lvl ++
              '\n' :: (indentCs lvl2 ++ rbrace :: rest) := by
          obtain ⟨t1, hp1⟩ := printMems_head k2 v2 tms lvl
          rw [skipWs_nl, skipWs_indent, hp1, List.cons_append,
            skipWs_cons_not _ _ (by decide)]
        rw [hshape, scanMems_step_key, scanStrBody_escRun]
        show (match skipWs (':' :: ' ' :: (printV v lvl ++ ',' :: '\n' :: (indentCs lvl ++
            (printMems (.cons k2 v2 tms) lvl ++
              '\n' :: (indentCs lvl2 ++ rbrace :: rest))))) with
          | [] => none
          | c2 :: r2 =>
            if c2 = ':' then
              match scanVal f (skipWs r2) with
              | none => none
              | some (w, r3) =>
                match skipWs r3 with
                | [] => none
                | c3 :: r4 =>
                  if c3 = ',' then
                    match scanMems f (skipWs r4) with
                    | some (ms2, r5) => some (JMems.cons k w ms2, r5)
                    | none => none
                  else if c3 = rbrace then some (JMems.cons k w .nil, r4)
                  else none
            else none) = some (JMems.cons k v (.cons k2 v2 tms), rest)
        rw [skipWs_cons_not _ _ (by decide)]
        show (match scanVal f (skipWs (' ' :: (printV v lvl ++ ',' :: '\n' ::
            (indentCs lvl ++ (printMems (.cons k2 v2 tms) lvl ++
              '\n' :: (indentCs lvl2 ++ rbrace :: rest)))))) with
          | none => none
          | some (w, r3) =>
            match skipWs r3 with
            | [] => none
            | c3 :: r4 =>
              if c3 = ',' then
                match scanMems f (skipWs r4) with
                | some (ms2, r5) => some (JMems.cons k w ms2, r5)
                | none => none
              else if c3 = rbrace then some (JMems.cons k w .nil, r4)
              else none) = some (JMems.cons k v (.cons k2 v2 tms), rest)
        rw [hskv, hval]
        show (match skipWs (',' :: '\n' :: (indentCs lvl ++
            (printMems (.cons k2 v2 tms) lvl ++
              '\n' :: (indentCs lvl2 ++ rbrace :: rest)))) with
          | [] => none
          | c3 :: r4 =>
            if c3 = ',' then
              match scanMems f (skipWs r4) with
              | some (ms2, r5) => some (JMems.cons k v ms2, r5)
              | none => none
            else if c3 = rbrace then some (JMems.cons k v .nil, r4)
            else none) = some (JMems.cons k v (.cons k2 v2 tms), rest)
        rw [skipWs_cons_not _ _ (by decide)]
        show (match scanMems f (skipWs ('\n' :: (indentCs lvl ++
            (printMems (.cons k2 v2 tms) lvl ++
              '\n' :: (indentCs lvl2 ++ rbrace :: rest))))) with
          | some (ms2, r5) => some (JMems.cons k v ms2, r5)
          | none => none) = some (JMems.cons k v (.cons k2 v2 tms), rest)
        rw [hskm, ihM k2 v2 tms lvl lvl2 rest (by simp only [needM] at hn ⊢; omega)]

/-- The pretty printer's output parses back to exactly the printed
value: Python's json.loads inverts json.dumps on this model. -/
theorem jsonLoads_dumps (v : JVal) : jsonLoads (jsonDumps v) = some v := by
  show (match scanVal ((printV v 0).length + 1) (skipWs (printV v 0)) with
    | some (w, r) =>
      match skipWs r with
      | [] => some w
      | _ :: _ => none
    | none => none) = some v
  obtain ⟨c0, t0, hp0, hg0⟩ := printV_head v 0
  have hskip : skipWs (printV v 0) = printV v 0 := by
    rw [hp0]
    exact skipWs_cons_not _ _ (goodStart_side c0 hg0).1
  have hlen : needV v ≤ (printV v 0).length + 1 := by
    have := needV_le v 0
    omega
  have hscan := (scan_print ((printV v 0).length + 1)).1 v 0 [] hlen trivial
  rw [List.append_nil] at hscan
  rw [hskip, hscan]
  rfl

/-! ## Envelope codec facts -/

theorem jsonLoads_err (e : String) : jsonLoads ("Error: " ++ e) = none := by
  have hd : ("Error: " ++ e).data =
      'E' :: 'r' :: 'r' :: 'o' :: 'r' :: ':' :: ' ' :: e.data := by
    rw [String.data_append]
    rfl
  show (match scanVal (("Error: " ++ e).data.length + 1) (skipWs ("Error: " ++ e).data) with
    | some (w, r) =>
      match skipWs r with
      | [] => some w
      | _ :: _ => none
    | none => none) = none
  rw [hd]
  rfl

theorem format_text_response_str_json (s : String) (j : JVal) (h : jsonLoads s = some j) :
    format_text_response (.str s) = [⟨"text", jsonDumps j⟩] := by
  show (match jsonLoads s with
    | some parsed => [(⟨"text", jsonDumps parsed⟩ : TextContent)]
    | none => [⟨"text", s⟩]) = [⟨"text", jsonDumps j⟩]
  rw [h]

theorem format_text_response_str_plain (s : String) (h : jsonLoads s = none) :
    format_text_response (.str s) = [⟨"text", s⟩] := by
  show (match jsonLoads s with
    | some parsed => [(⟨"text", jsonDumps parsed⟩ : TextContent)]
    | none => [⟨"text", s⟩]) = [⟨"text", s⟩]
  rw [h]

theorem format_text_response_other (r : String) :
    format_text_response (.other r) = [⟨"text", r⟩] := rfl

theorem format_text_response_single (v : PyVal) :
    ∃ t, format_text_response v = [⟨"text", t⟩] := by
  cases v with
  | str s =>
    cases h : jsonLoads s with
    | none => exact ⟨s, format_text_response_str_plain s h⟩
    | some j => exact ⟨jsonDumps j, format_text_response_str_json s j h⟩
  | other r => exact ⟨r, rfl⟩

theorem format_error_response_eq (e : String) :
    format_error_response e = [⟨"text", "Error: " ++ e⟩] := by
  unfold format_error_response
  exact format_text_response_str_plain _ (jsonLoads_err e)

/-! ## Claim theorems -/

/-- Claim C1 counterexample: with the vector store enabled, a first
execution failing with the 401 signature followed by a session refresh
that itself raises lets the refresh exception escape execute_vs_tool,
so an exception can be raised past this boundary, refuting the claim as
stated. -/
theorem claim_C1_counterexample :
    (execute_vs_tool true ⟨0⟩ (fun _ => .error "401 Unauthorized")
      (.error "refresh failed")).result = .error "refresh failed" := rfl

/-- Claim C1 (amended): for an enabled vector-session call whose first
execution fails with the auth/expiry signature, provided the session
refresh itself returns without raising, exactly one refresh and one
retry are performed; failure of the retried call, like any
non-matching first failure, becomes an error envelope and no exception
escapes in those cases.  (A refresh that raises propagates, which is
what the counterexample exhibits.) -/
theorem claim_C1_refresh_retry (evs evs2 : EVSSession)
    (tool : EVSSession → Except String PyVal)
    (refreshResult : Except String EVSSession) (e : String) :
    (∀ v, tool evs = .ok v →
      execute_vs_tool true evs tool refreshResult =
        ⟨.ok (format_text_response v), evs, true, 1, 0⟩) ∧
    (tool evs = .error e → isAuthFailure e = false →
      execute_vs_tool true evs tool refreshResult =
        ⟨.ok (format_error_response e), evs, true, 1, 0⟩) ∧
    (tool evs = .error e → isAuthFailure e = true → refreshResult = .ok evs2 →
      (∀ v, tool evs2 = .ok v →
        execute_vs_tool true evs tool refreshResult =
          ⟨.ok (format_text_response v), evs2, true, 2, 1⟩) ∧
      (∀ e2, tool evs2 = .error e2 →
        execute_vs_tool true evs tool refreshResult =
          ⟨.ok (format_error_response ("After refresh, still failed: " ++ e2)),
            evs2, true, 2, 1⟩)) := by
  refine ⟨?_, ?_, ?_⟩
  · intro v hv
    simp [execute_vs_tool, hv]
  · intro he hauth
    simp [execute_vs_tool, he, hauth]
  · intro he hauth href
    refine ⟨?_, ?_⟩
    · intro v hv2
      simp [execute_vs_tool, he, hauth, href, hv2]
    · intro e2 he2
      simp [execute_vs_tool, he, hauth, href, he2]

/-- Claim C1 witness: a concrete expired-session call refreshes once
and succeeds on the single retry. -/
theorem claim_C1_witness :
    execute_vs_tool true ⟨0⟩
      (fun s => if s.sid = 0 then .error "Session expired" else .ok (.str "pong"))
      (.ok ⟨1⟩) =
      ⟨.ok (format_text_response (.str "pong")), ⟨1⟩, true, 2, 1⟩ :=
  ((claim_C1_refresh_retry ⟨0⟩ ⟨1⟩
      (fun s => if s.sid = 0 then .error "Session expired" else .ok (.str "pong"))
      (.ok ⟨1⟩) "Session expired").2.2 (by rfl) (by rfl) rfl).1 (.str "pong") (by rfl)

/-- Claim C2: every database dispatch checks the stored handle before
the handler runs: a non-truthy (absent or not-alive) handle is replaced
by the fresh connection, which is stored and handed to the handler; a
truthy handle is reused without any connect attempt; and a subsequent
dispatch on the stored fresh live handle reconnects nothing and keeps
the same handle. -/
theorem claim_C2_acquire_liveness (t : TDConn) (fresh : Except String TDConn)
    (tool : TDConn → Except String PyVal) :
    (connTruthy t = false → ∀ c, fresh = .ok c →
      (execute_db_tool t fresh tool).tdconn = c ∧
      (execute_db_tool t fresh tool).connectAttempts = 1 ∧
      (execute_db_tool t fresh tool).result =
        .ok (match tool c with
          | .ok v => format_text_response v
          | .error e => format_error_response e)) ∧
    (connTruthy t = true →
      (execute_db_tool t fresh tool).tdconn = t ∧
      (execute_db_tool t fresh tool).connectAttempts = 0 ∧
      (execute_db_tool t fresh tool).result =
        .ok (match tool t with
          | .ok v => format_text_response v
          | .error e => format_error_response e)) ∧
    (connTruthy t = false → ∀ c, fresh = .ok c → connTruthy c = true →
      ∀ (fresh2 : Except String TDConn) (tool2 : TDConn → Except String PyVal),
        (execute_db_tool (execute_db_tool t fresh tool).tdconn fresh2 tool2).connectAttempts = 0 ∧
        (execute_db_tool (execute_db_tool t fresh tool).tdconn fresh2 tool2).tdconn = c) := by
  refine ⟨?_, ?_, ?_⟩
  · intro hfalse c hfresh
    cases htc : tool c with
    | ok v => simp [execute_db_tool, hfalse, hfresh, htc]
    | error e2 => simp [execute_db_tool, hfalse, hfresh, htc]
  · intro htrue
    cases htt : tool t with
    | ok v => simp [execute_db_tool, htrue, htt]
    | error e2 => simp [execute_db_tool, htrue, htt]
  · intro hfalse c hfresh halive fresh2 tool2
    have htd : (execute_db_tool t fresh tool).tdconn = c := by
      cases htc : tool c with
      | ok v => simp [execute_db_tool, hfalse, hfresh, htc]
      | error e2 => simp [execute_db_tool, hfalse, hfresh, htc]
    rw [htd]
    cases htc2 : tool2 c with
    | ok v => simp [execute_db_tool, halive, htc2]
    | error e2 => simp [execute_db_tool, halive, htc2]

/-- Claim C2 witness: a dead stored handle is replaced by the fresh
connection, and a dispatch on a live stored handle performs no connect
attempt. -/
theorem claim_C2_witness :
    (execute_db_tool ⟨none⟩ (.ok ⟨some ⟨true⟩⟩) (fun _ => .ok (.str "ok"))).tdconn =
      ⟨some ⟨true⟩⟩ ∧
    (execute_db_tool ⟨some ⟨true⟩⟩ (.error "unused")
      (fun _ => .ok (.str "ok"))).connectAttempts = 0 :=
  ⟨((claim_C2_acquire_liveness ⟨none⟩ (.ok ⟨some ⟨true⟩⟩) (fun _ => .ok (.str "ok"))).1
      rfl ⟨some ⟨true⟩⟩ rfl).1,
   ((claim_C2_acquire_liveness ⟨some ⟨true⟩⟩ (.error "unused")
      (fun _ => .ok (.str "ok"))).2.1 rfl).2.1⟩

/-- Claim C3: every dispatch returns a payload rather than raising;
reconnection failure and handler failure, on a live or freshly
reconnected handle, all become the error envelope carrying the
exception text, which is a single text item prefixed with the error
marker. -/
theorem claim_C3_error_envelope (t : TDConn) (fresh : Except String TDConn)
    (tool : TDConn → Except String PyVal) :
    (∃ r, (execute_db_tool t fresh tool).result = .ok r) ∧
    (∀ e, connTruthy t = false → fresh = .error e →
      (execute_db_tool t fresh tool).result = .ok (format_error_response e)) ∧
    (∀ e, connTruthy t = true → tool t = .error e →
      (execute_db_tool t fresh tool).result = .ok (format_error_response e)) ∧
    (∀ e c, connTruthy t = false → fresh = .ok c → tool c = .error e →
      (execute_db_tool t fresh tool).result = .ok (format_error_response e)) ∧
    (∀ e, format_error_response e = [⟨"text", "Error: " ++ e⟩]) := by
  refine ⟨?_, ?_, ?_, ?_, format_error_response_eq⟩
  · cases hb : connTruthy t with
    | true =>
      cases htt : tool t with
      | ok v => exact ⟨format_text_response v, by simp [execute_db_tool, hb, htt]⟩
      | error e => exact ⟨format_error_response e, by simp [execute_db_tool, hb, htt]⟩
    | false =>
      cases hf : fresh with
      | ok c =>
        cases htc : tool c with
        | ok v => exact ⟨format_text_response v, by simp [execute_db_tool, hb, hf, htc]⟩
        | error e => exact ⟨format_error_response e, by simp [execute_db_tool, hb, hf, htc]⟩
      | error e => exact ⟨format_error_response e, by simp [execute_db_tool, hb, hf]⟩
  · intro e hfalse hfresh
    simp [execute_db_tool, hfalse, hfresh]
  · intro e htrue htool
    simp [execute_db_tool, htrue, htool]
  · intro e c hfalse hfresh htool
    simp [execute_db_tool, hfalse, hfresh, htool]

/-- Claim C3 witness: a handler failure on a live handle returns the
error envelope rather than raising. -/
theorem claim_C3_witness :
    (execute_db_tool ⟨some ⟨true⟩⟩ (.error "unused")
      (fun _ => .error "syntax error")).result =
      .ok (format_error_response "syntax error") :=
  (claim_C3_error_envelope ⟨some ⟨true⟩⟩ (.error "unused")
    (fun _ => .error "syntax error")).2.2.1 "syntax error" rfl rfl

/-- Claim C4: a failed initial connect leaves the enabled flag false;
and every disabled vector-session call, for all operations and
arguments, returns the fixed unavailable error envelope, performs no
vector-store operation and no refresh, and leaves the flag false. -/
theorem claim_C4_disabled_short_circuit (vsEnv : Option String)
    (connect : Except String EVSSession) (e : String) :
    (connect = .error e → (startupEVS vsEnv connect).enableEVS = false) ∧
    (∀ (evs : EVSSession) (tool : EVSSession → Except String PyVal)
        (refreshResult : Except String EVSSession),
      execute_vs_tool false evs tool refreshResult =
        ⟨.ok (format_error_response
            "Enterprise Vector Store is not available on this server."),
          evs, false, 0, 0⟩) ∧
    format_error_response "Enterprise Vector Store is not available on this server." =
      [⟨"text", "Error: Enterprise Vector Store is not available on this server."⟩] := by
  refine ⟨?_, ?_, ?_⟩
  · intro hc
    by_cases h : 0 < (vsEnv.getD "").trim.length
    · simp [startupEVS, h, hc]
    · simp [startupEVS, h]
  · intro evs tool refreshResult
    rfl
  · exact format_error_response_eq "Enterprise Vector Store is not available on this server."

/-- Claim C4 witness: a concrete failed startup connect leaves the
subsystem disabled, and a disabled call short-circuits with zero
vector-store interactions. -/
theorem claim_C4_witness :
    (startupEVS (some "vs_demo") (.error "connection refused")).enableEVS = false ∧
    execute_vs_tool false ⟨0⟩ (fun _ => .ok (.str "x")) (.error "y") =
      ⟨.ok (format_error_response
          "Enterprise Vector Store is not available on this server."),
        ⟨0⟩, false, 0, 0⟩ :=
  ⟨(claim_C4_disabled_short_circuit (some "vs_demo") (.error "connection refused")
      "connection refused").1 rfl,
   (claim_C4_disabled_short_circuit (some "vs_demo") (.error "connection refused")
      "connection refused").2.1 ⟨0⟩ (fun _ => .ok (.str "x")) (.error "y")⟩

/-- Claim C5: a shutdown trigger arriving while a shutdown is already
in progress exits immediately with code 1 and performs no connection
teardown, so completion of the first teardown is never awaited. -/
theorem claim_C5_forced_exit (aliveExists : Bool) (sig : Option Nat) :
    (shutdown true aliveExists sig).exitCode = 1 ∧
    (shutdown true aliveExists sig).connClosed = false :=
  ⟨rfl, rfl⟩

/-- Claim C6: encoding a string whose text parses as JSON yields the
pretty-printed dump, whose text parses back to the same structure;
encoding a string that does not parse as JSON yields a payload whose
text is the original string unchanged. -/
theorem claim_C6_encode_roundtrip (s : String) :
    (∀ j, jsonLoads s = some j →
      format_text_response (.str s) = [⟨"text", jsonDumps j⟩] ∧
      jsonLoads (jsonDumps j) = some j) ∧
    (jsonLoads s = none → format_text_response (.str s) = [⟨"text", s⟩]) :=
  ⟨fun j h => ⟨format_text_response_str_json s j h, jsonLoads_dumps j⟩,
   fun h => format_text_response_str_plain s h⟩

/-- Claim C6 witness: a concrete JSON text is re-serialized and parses
back to the same structure. -/
theorem claim_C6_witness :
    ∃ t, format_text_response (.str "[1, true]") = [⟨"text", t⟩] ∧
      jsonLoads t = some (.jarr (.cons (.jnum 1) (.cons (.jbool true) .nil))) :=
  ⟨jsonDumps (.jarr (.cons (.jnum 1) (.cons (.jbool true) .nil))),
   ((claim_C6_encode_roundtrip "[1, true]").1
      (.jarr (.cons (.jnum 1) (.cons (.jbool true) .nil))) rfl).1,
   ((claim_C6_encode_roundtrip "[1, true]").1
      (.jarr (.cons (.jnum 1) (.cons (.jbool true) .nil))) rfl).2⟩

/-- Claim C7: the exit code is 0 for a clean no-signal shutdown, 128
plus the signal number for a signal-triggered shutdown, and 1 for a
forced double shutdown. -/
theorem claim_C7_exit_codes (aliveExists : Bool) :
    (shutdown false aliveExists none).exitCode = 0 ∧
    (∀ s : Nat, (shutdown false aliveExists (some s)).exitCode = 128 + s) ∧
    (∀ sig : Option Nat, (shutdown true aliveExists sig).exitCode = 1) :=
  ⟨rfl, fun _ => rfl, fun _ => rfl⟩

/-- Claim C8 counterexample: streamable-http is a networked transport
mode (the branch configures host and port) yet its startup does not
create the liveness marker file, refuting the claim for that mode. -/
theorem claim_C8_counterexample :
    (mainStartup (some "streamable-http")).setsHostPort = true ∧
    (mainStartup (some "streamable-http")).aliveCreated = false :=
  ⟨rfl, rfl⟩

/-- Claim C8 (amended): the liveness marker is created at startup
exactly when the transport is sse (not for every networked transport),
and shutdown removes the marker exactly when it is present. -/
theorem claim_C8_marker (envTransport : Option String) :
    (mainStartup envTransport).aliveCreated =
      ((mainStartup envTransport).transport == "sse") ∧
    (∀ (inProgress aliveExists : Bool) (sig : Option Nat),
      (shutdown inProgress aliveExists sig).aliveRemoved = aliveExists) := by
  refine ⟨rfl, ?_⟩
  intro inProgress aliveExists sig
  cases inProgress <;> rfl

/-- Claim C9: format_text_response always returns exactly one text
item and never raises; a non-string value is stringified and wrapped, a
JSON-parseable string is re-serialized, any other string is wrapped
as-is, and every error envelope is one text item whose text begins with
the fixed error marker. -/
theorem claim_C9_format_shape :
    (∀ v : PyVal, ∃ t, format_text_response v = [⟨"text", t⟩]) ∧
    (∀ r, format_text_response (.other r) = [⟨"text", r⟩]) ∧
    (∀ s j, jsonLoads s = some j →
      format_text_response (.str s) = [⟨"text", jsonDumps j⟩]) ∧
    (∀ s, jsonLoads s = none → format_text_response (.str s) = [⟨"text", s⟩]) ∧
    (∀ e, format_error_response e = [⟨"text", "Error: " ++ e⟩]) :=
  ⟨format_text_response_single, format_text_response_other,
   format_text_response_str_json, format_text_response_str_plain,
   format_error_response_eq⟩

/-- Claim C9 witness: a concrete non-JSON string passes through
unchanged and a concrete error envelope carries the prefixed text. -/
theorem claim_C9_witness :
    format_text_response (.str "just text") = [⟨"text", "just text"⟩] ∧
    format_error_response "boom" = [⟨"text", "Error: boom"⟩] :=
  ⟨claim_C9_format_shape.2.2.2.1 "just text" rfl,
   claim_C9_format_shape.2.2.2.2 "boom"⟩

/-- Claim C10 counterexample: a get_evs() failure, which occurs before
the try block, escapes the handler, refuting the claim that the handler
never raises. -/
theorem claim_C10_counterexample :
    handle_evs_similarity_search_getAnswerOnly (.error "EVS connection failed")
      (fun _ => .ok []) (fun _ => .ok none) = .error "EVS connection failed" := rfl

/-- Claim C10 (amended): provided get_evs() returns the session without
raising, the handler never raises: no records yields the fixed no-match
string, a best-scoring kb_id with no FAQ row yields the fixed no-answer
string, a found answer is returned as a plain string without JSON
wrapping, and any failure inside the try block yields the status-error
JSON string.  (A get_evs() failure itself propagates, which is what the
counterexample exhibits.) -/
theorem claim_C10_best_answer (vs : EVSSession)
    (getEvs : Except String EVSSession)
    (searchRecords : EVSSession → Except String (List EVSRecord))
    (faqLookup : PyV → Except String (Option String))
    (hget : getEvs = .ok vs) :
    (∃ s, handle_evs_similarity_search_getAnswerOnly getEvs searchRecords faqLookup =
      .ok s) ∧
    (searchRecords vs = .ok [] →
      handle_evs_similarity_search_getAnswerOnly getEvs searchRecords faqLookup =
        .ok "(No similar question found)") ∧
    (∀ records best kbId, searchRecords vs = .ok records →
      maxByScore records = .ok best → lookupKey best "kb_id" = .ok kbId →
      (faqLookup kbId = .ok none →
        handle_evs_similarity_search_getAnswerOnly getEvs searchRecords faqLookup =
          .ok "(No answer for this kb_id)") ∧
      (∀ answer, faqLookup kbId = .ok (some answer) →
        handle_evs_similarity_search_getAnswerOnly getEvs searchRecords faqLookup =
          .ok answer)) ∧
    (∀ e, searchRecords vs = .error e →
      handle_evs_similarity_search_getAnswerOnly getEvs searchRecords faqLookup =
        .ok (errorJson e)) := by
  subst hget
  have houter : ∀ (b : Except String String),
      getAnswerBody vs searchRecords faqLookup = b →
      handle_evs_similarity_search_getAnswerOnly (.ok vs) searchRecords faqLookup =
        (match b with
         | Except.ok s => (Except.ok s : Except String String)
         | Except.error e => .ok (errorJson e)) := by
    intro b hb
    show (match getAnswerBody vs searchRecords faqLookup with
      | Except.ok s => (Except.ok s : Except String String)
      | Except.error e => .ok (errorJson e)) = _
    rw [hb]
  refine ⟨?_, ?_, ?_, ?_⟩
  · cases hb : getAnswerBody vs searchRecords faqLookup with
    | ok s => exact ⟨s, houter (.ok s) hb⟩
    | error e => exact ⟨errorJson e, houter (.error e) hb⟩
  · intro hsr
    exact houter (.ok "(No similar question found)") (by simp [getAnswerBody, hsr])
  · intro records best kbId hsr hmax hkb
    cases records with
    | nil => exact absurd hmax (by simp [maxByScore])
    | cons r0 rs =>
      refine ⟨?_, ?_⟩
      · intro hfaq
        exact houter (.ok "(No answer for this kb_id)")
          (by simp [getAnswerBody, hsr, hmax, hkb, hfaq])
      · intro answer hfaq
        exact houter (.ok answer) (by simp [getAnswerBody, hsr, hmax, hkb, hfaq])
  · intro e hsr
    exact houter (.error e) (by simp [getAnswerBody, hsr])

/-- Claim C10 witness: a concrete two-record search picks the
higher-scoring kb_id, returns its FAQ answer as a plain string, and the
except-branch payload for a concrete message parses as a status-error
JSON object carrying that message. -/
theorem claim_C10_witness :
    handle_evs_similarity_search_getAnswerOnly (.ok ⟨7⟩)
      (fun _ => .ok [[("kb_id", .int 1), ("score", .int 5)],
                     [("kb_id", .int 2), ("score", .int 9)]])
      (fun kb => if kb = .int 2 then .ok (some "The answer") else .ok none) =
      .ok "The answer" ∧
    jsonLoads (errorJson "boom") =
      some (.jobj (.cons "status" (.jstr "error") (.cons "message" (.jstr "boom") .nil))) := by
  constructor
  · exact ((claim_C10_best_answer ⟨7⟩ (.ok ⟨7⟩)
      (fun _ => .ok [[("kb_id", .int 1), ("score", .int 5)],
                     [("kb_id", .int 2), ("score", .int 9)]])
      (fun kb => if kb = .int 2 then .ok (some "The answer") else .ok none)
      rfl).2.2.1
      [[("kb_id", .int 1), ("score", .int 5)], [("kb_id", .int 2), ("score", .int 9)]]
      [("kb_id", .int 2), ("score", .int 9)] (.int 2) rfl (by rfl) (by rfl)).2
      "The answer" (by rfl)
  · rfl

end TdMcp
